import Mathlib

/-!
Verification of the racer typing-trainer core against its specification.
The definitions below are shallow embeddings of the pure functions in
src/core/game-logic, src/core/word-generation, src/core/word-pool,
src/core/adaptive-difficulty and src/core/adaptive-scoring.
Characters are modelled as Lean Char (board slots always hold one-character
strings in the source), strings as Lean String, JS numbers as Nat, Int or
Rat as appropriate, and the random index drawn by Math.random is passed in
as an explicit parameter reduced modulo the list length.
-/

/-- A slot on the board: the generated character and whether it was caught
(field named success in the source). -/
structure BoardItem where
  generated : Char
  success : Bool
deriving Repr, DecidableEq

/-- The board is a fixed-size array whose cells may be undefined. -/
abbrev Board := List (Option BoardItem)

/-- The complete game state, as in src/core/types. -/
structure GameState where
  board : Board
  typedProgress : String
  errorCount : Nat
  missedLetters : Nat
  catchCount : Nat
  tickCount : Nat
deriving Repr, DecidableEq

def BOARD_SIZE : Nat := 16

def CATCH_LINE_POSITION : Nat := 13

/-- createInitialGameState: board of 16 undefined cells, all counters 0. -/
def createInitialGameState : GameState :=
  { board := List.replicate BOARD_SIZE none
    typedProgress := ""
    errorCount := 0
    missedLetters := 0
    catchCount := 0
    tickCount := 0 }

/-- JS string indexing s[i]: the character at position i, if any. -/
def charAt (s : String) (i : Nat) : Option Char := s.data.get? i

/-- JS array indexing board[i]: undefined both out of range and at an
undefined cell. -/
def boardAt (b : Board) (i : Nat) : Option BoardItem := (b.get? i).getD none

/-- updateBoardWithNewChar from src/core/game-logic: count a miss when the
uncaught slot leaving the catch line was the next needed letter, then shift
the board, inserting the new character at the head and dropping the tail. -/
def updateBoardWithNewChar (state : GameState) (newChar : Char) (fullTarget : String) :
    GameState :=
  let newMissedLetters :=
    match boardAt state.board CATCH_LINE_POSITION with
    | some catchLineItem =>
      match charAt fullTarget state.typedProgress.length with
      | some nextExpectedChar =>
        if catchLineItem.generated.toLower = nextExpectedChar.toLower ∧
            catchLineItem.success = false then
          state.missedLetters + 1
        else
          state.missedLetters
      | none => state.missedLetters
    | none => state.missedLetters
  let newBoard := (some { generated := newChar, success := false } :: state.board).dropLast
  { state with
      board := newBoard
      missedLetters := newMissedLetters
      tickCount := state.tickCount + 1 }

/-- The four feedback kinds of the keypress resolver. -/
inductive FeedbackType where
  | success
  | error
  | miss
  | empty
deriving Repr, DecidableEq

/-- Result of processing a keypress (the human-readable feedback message of
the source is omitted; it carries no game-state information). -/
structure KeypressResult where
  newState : GameState
  feedbackType : FeedbackType
  isLevelComplete : Bool
  shouldPlaySound : Option String
deriving Repr, DecidableEq

/-- processKeypress from src/core/game-logic: classify a keystroke against
the catch-line slot and the next expected target character. -/
def processKeypress (pressedChar : Char) (state : GameState) (fullTarget : String) :
    KeypressResult :=
  let nextExpectedChar := charAt fullTarget state.typedProgress.length
  match boardAt state.board CATCH_LINE_POSITION with
  | none =>
    { newState := state
      feedbackType := .empty
      isLevelComplete := false
      shouldPlaySound := none }
  | some itemAtCatchLine =>
    let letterAtSelection := itemAtCatchLine.generated
    let isSuccess :=
      match nextExpectedChar with
      | some nextChar =>
        pressedChar.toLower == letterAtSelection.toLower &&
          letterAtSelection.toLower == nextChar.toLower
      | none => false
    if isSuccess then
      let newBoard :=
        state.board.set CATCH_LINE_POSITION (some { itemAtCatchLine with success := true })
      let newTypedProgress := state.typedProgress.push letterAtSelection
      let isComplete := newTypedProgress == fullTarget
      let successSoundIndex := min state.catchCount 29
      { newState :=
          { state with
              board := newBoard
              typedProgress := newTypedProgress
              catchCount := state.catchCount + 1 }
        feedbackType := .success
        isLevelComplete := isComplete
        shouldPlaySound := some ("success" ++ toString successSoundIndex) }
    else if pressedChar.toLower == letterAtSelection.toLower then
      { newState := { state with errorCount := state.errorCount + 1 }
        feedbackType := .error
        isLevelComplete := false
        shouldPlaySound := some "error" }
    else
      { newState := { state with errorCount := state.errorCount + 1 }
        feedbackType := .miss
        isLevelComplete := false
        shouldPlaySound := some "error" }

/-- Policy constant of src/core/word-generation: copies of the next needed
letter in the bag. -/
def NEXT_WEIGHT : Nat := 10

/-- Policy constant of src/core/word-generation: copies of each other
remaining letter in the bag. -/
def OTHER_WEIGHT : Nat := 2

/-- Policy constant of src/core/word-generation: filler blanks are
floor(size / SPACING_DIVISOR). -/
def SPACING_DIVISOR : Nat := 4

/-- First-occurrence deduplication, mirroring iteration over a JS Set built
by insertion (helper for generateBagOfChars). -/
def dedupAux : List Char → List Char → List Char
  | [], _ => []
  | c :: rest, seen =>
    if c ∈ seen then dedupAux rest seen else c :: dedupAux rest (c :: seen)

/-- The distinct characters of a list in first-occurrence order. -/
def uniqueInOrder (l : List Char) : List Char := dedupAux l []

/-- generateBagOfChars from src/core/word-generation: the weighted draw
pool for spawning characters. -/
def generateBagOfChars (typedProgress fullTarget : String) : List Char :=
  let remaining := fullTarget.data.drop typedProgress.length
  match remaining with
  | [] => [' ']
  | nextChar :: _ =>
    let nextLetter := nextChar.toLower
    let remainingLetters := remaining.map Char.toLower
    let uniqueRemaining := uniqueInOrder remainingLetters
    let selection :=
      List.replicate NEXT_WEIGHT nextLetter ++
        uniqueRemaining.flatMap (fun letter =>
          if letter ≠ nextLetter ∧ letter ≠ ' ' then List.replicate OTHER_WEIGHT letter
          else [])
    let numberOfSpaces := selection.length / SPACING_DIVISOR
    selection ++ List.replicate numberOfSpaces ' '

/-- Performance statistics for a completed word. -/
structure PerformanceStats where
  errorCount : Nat
  missedLetters : Nat
  isPerfect : Bool
deriving Repr, DecidableEq

/-- shouldUpgrade from src/core/adaptive-difficulty: perfect round. -/
def shouldUpgrade (stats : PerformanceStats) : Bool :=
  stats.errorCount == 0 && stats.missedLetters == 0

/-- shouldDowngrade from src/core/adaptive-difficulty: some errors and some
misses. -/
def shouldDowngrade (stats : PerformanceStats) : Bool :=
  decide (stats.errorCount > 0) && decide (stats.missedLetters > 0)

/-- Consecutive perfect completions required to upgrade. -/
def PERFECT_COMPLETIONS_REQUIRED : Nat := 1

/-- The three progression kinds. -/
inductive ProgressionType where
  | upgrade
  | stay
  | downgrade
deriving Repr, DecidableEq

/-- Result of calculateNextWordLength (the display message of the source is
omitted; it carries no state). -/
structure ProgressionCalc where
  newWordLength : Int
  progressionType : ProgressionType
  consecutivePerfect : Nat
deriving Repr, DecidableEq

/-- calculateNextWordLength from src/core/adaptive-difficulty: the bounded,
streak-gated walk on word length. -/
def calculateNextWordLength (currentWordLength : Int) (stats : PerformanceStats)
    (minWordLength maxWordLength : Int) (consecutivePerfect : Nat) : ProgressionCalc :=
  if shouldUpgrade stats then
    let newConsecutivePerfect := consecutivePerfect + 1
    if newConsecutivePerfect ≥ PERFECT_COMPLETIONS_REQUIRED then
      { newWordLength := min (currentWordLength + 1) maxWordLength
        progressionType := .upgrade
        consecutivePerfect := 0 }
    else
      { newWordLength := currentWordLength
        progressionType := .stay
        consecutivePerfect := newConsecutivePerfect }
  else if shouldDowngrade stats then
    { newWordLength := max (currentWordLength - 1) minWordLength
      progressionType := .downgrade
      consecutivePerfect := 0 }
  else
    { newWordLength := currentWordLength
      progressionType := .stay
      consecutivePerfect := 0 }

/-- Session-wide difficulty state (usedWords, a JS Set, is modelled as a
duplicate-free list). -/
structure DifficultyState where
  currentWordLength : Int
  minWordLength : Int
  maxWordLength : Int
  completedWords : Nat
  usedWords : List String
  consecutivePerfect : Nat
deriving Repr, DecidableEq

/-- createInitialDifficultyState from src/core/adaptive-difficulty. -/
def createInitialDifficultyState (startingLength maxLength : Int) : DifficultyState :=
  { currentWordLength := startingLength
    minWordLength := startingLength
    maxWordLength := maxLength
    completedWords := 0
    usedWords := []
    consecutivePerfect := 0 }

/-- Result of updateDifficultyState. -/
structure DifficultyUpdate where
  newState : DifficultyState
  progression : ProgressionCalc
deriving Repr, DecidableEq

/-- Set.add on the usedWords model: insert if not already present. -/
def addUsedWord (usedWords : List String) (word : String) : List String :=
  if word ∈ usedWords then usedWords else word :: usedWords

/-- updateDifficultyState from src/core/adaptive-difficulty. -/
def updateDifficultyState (state : DifficultyState) (completedWord : String)
    (stats : PerformanceStats) : DifficultyUpdate :=
  let progressionResult :=
    calculateNextWordLength state.currentWordLength stats state.minWordLength
      state.maxWordLength state.consecutivePerfect
  { newState :=
      { state with
          currentWordLength := progressionResult.newWordLength
          completedWords := state.completedWords + 1
          usedWords := addUsedWord state.usedWords completedWord
          consecutivePerfect := progressionResult.consecutivePerfect }
    progression := progressionResult }

/-- The starting word length, level 1, from src/core/adaptive-scoring. -/
def STARTING_WORD_LENGTH : Int := 3

/-- getLevelFromWordLength from src/core/adaptive-scoring. -/
def getLevelFromWordLength (wordLength : Int) : Int :=
  wordLength - STARTING_WORD_LENGTH + 1

/-- getWordLengthFromLevel from src/core/adaptive-scoring. -/
def getWordLengthFromLevel (level : Int) : Int :=
  level + STARTING_WORD_LENGTH - 1

/-- calculateScore from src/core/adaptive-scoring; JS numbers are modelled
as rationals, on which the divisions involved are exact. -/
def calculateScore (completedLevels completedWords : ℚ) : ℚ :=
  if completedWords = 0 then 0
  else if completedLevels < 0 then 0
  else max 0 (min 100 (completedLevels / completedWords * 100))

/-- The score formula as the specification words it: level divided by words
completed, times 100, clamped to the interval from 0 to 100, and 0 when no
word is completed. Stated for comparison with calculateScore. -/
def specScore (level wordsCompleted : ℚ) : ℚ :=
  if wordsCompleted = 0 then 0
  else max 0 (min 100 (level / wordsCompleted * 100))

/-- A level of the corpus: its target word. -/
structure Level where
  target : String
deriving Repr, DecidableEq

/-- The length-indexed pool; a length with no entry maps to the empty list
(the source guard treats an absent key and an empty list identically). -/
abbrev WordsByLength := Nat → List String

/-- organizeWordsByLength from src/core/word-pool: push each target onto
the bucket of its length. -/
def organizeWordsByLength (levels : List Level) : WordsByLength :=
  levels.foldl
    (fun wordsByLength level => fun len =>
      if len = level.target.length then wordsByLength len ++ [level.target]
      else wordsByLength len)
    (fun _ => [])

/-- selectWordAtLength from src/core/word-pool. The uniform random draw of
the source is modelled by the explicit index randomIndex, reduced modulo
the drawn-from list length so that any index denotes a valid draw. -/
def selectWordAtLength (wordsByLength : WordsByLength) (targetLength : Nat)
    (usedWords : List String) (randomIndex : Nat) : Option String :=
  let wordsAtLength := wordsByLength targetLength
  if wordsAtLength.isEmpty then none
  else
    let availableWords := wordsAtLength.filter (fun word => !(usedWords.contains word))
    if availableWords.isEmpty then
      wordsAtLength.get? (randomIndex % wordsAtLength.length)
    else
      availableWords.get? (randomIndex % availableWords.length)

/-- A non-empty list yields a valid draw at any reduced random index. -/
theorem get?_mod_eq_some (l : List String) (h : l ≠ []) (i : Nat) :
    ∃ w, l.get? (i % l.length) = some w ∧ w ∈ l := by
  have hlen : 0 < l.length := List.length_pos.mpr h
  have hlt : i % l.length < l.length := Nat.mod_lt _ hlen
  exact ⟨l.get ⟨i % l.length, hlt⟩, List.get?_eq_get hlt, List.get_mem _ _ _⟩

/-- Any word returned by selectWordAtLength comes from the requested
bucket. -/
theorem selectWordAtLength_mem (pool : WordsByLength) (targetLength : Nat)
    (usedWords : List String) (randomIndex : Nat) (w : String)
    (h : selectWordAtLength pool targetLength usedWords randomIndex = some w) :
    w ∈ pool targetLength := by
  unfold selectWordAtLength at h
  dsimp only at h
  split_ifs at h with h1 h2
  · exact List.get?_mem h
  · exact List.mem_of_mem_filter (List.get?_mem h)

/-- Words kept by the anti-repetition filter are unused bucket words. -/
theorem mem_available_words (pool : WordsByLength) (targetLength : Nat)
    (usedWords : List String) (w : String)
    (h : w ∈ (pool targetLength).filter (fun word => !(usedWords.contains word))) :
    w ∈ pool targetLength ∧ w ∉ usedWords := by
  rcases List.mem_filter.mp h with ⟨hmem, hkeep⟩
  refine ⟨hmem, ?_⟩
  simpa using hkeep

/-- C8: the level-from-length and length-from-level conversions are
mutually inverse: getWordLengthFromLevel (getLevelFromWordLength n) = n for
every word length n. -/
theorem level_length_roundtrip (n : Int) :
    getWordLengthFromLevel (getLevelFromWordLength n) = n := by
  simp only [getWordLengthFromLevel, getLevelFromWordLength, STARTING_WORD_LENGTH]
  omega

/-- C8 witness at the starting word length. -/
theorem level_length_roundtrip_witness :
    getWordLengthFromLevel (getLevelFromWordLength 3) = 3 :=
  level_length_roundtrip 3

/-- C7: for every level and every non-negative words-completed count,
calculateScore equals the level divided by the word count, times 100,
clamped to the interval from 0 to 100, and equals 0 when the count is 0;
in particular score 3 12 = 25, score 5 5 = 100 and score 0 0 = 0. -/
theorem calculateScore_spec :
    (∀ level wordsCompleted : ℚ, 0 ≤ wordsCompleted →
      calculateScore level wordsCompleted = specScore level wordsCompleted) ∧
    (∀ level : ℚ, calculateScore level 0 = 0) ∧
    calculateScore 3 12 = 25 ∧ calculateScore 5 5 = 100 ∧ calculateScore 0 0 = 0 := by
  refine ⟨?_, ?_, ?_, ?_, ?_⟩
  · intro level wordsCompleted hw
    unfold calculateScore specScore
    rcases eq_or_lt_of_le hw with h0 | h0
    · simp [← h0]
    · have hne : wordsCompleted ≠ 0 := ne_of_gt h0
      simp only [hne, if_false]
      rcases lt_or_le level 0 with hl | hl
      · have hdiv : level / wordsCompleted * 100 < 0 :=
          mul_neg_of_neg_of_pos (div_neg_of_neg_of_pos hl h0) (by norm_num)
        rw [if_pos hl, min_eq_right (le_of_lt (lt_of_lt_of_le hdiv (by norm_num))),
          max_eq_left (le_of_lt hdiv)]
      · rw [if_neg (not_lt.mpr hl)]
  · intro level; simp [calculateScore]
  · norm_num [calculateScore]
  · norm_num [calculateScore]
  · norm_num [calculateScore]

/-- C7 witness: the clamped-formula equality applied at score 3 12. -/
theorem calculateScore_spec_witness :
    calculateScore 3 12 = specScore 3 12 :=
  calculateScore_spec.1 3 12 (by norm_num)

/-- C2: updateDifficultyState increments the streak on a perfect round and
upgrades (bounded by maxWordLength) when the incremented streak reaches
PERFECT_COMPLETIONS_REQUIRED, resetting the streak; downgrades (bounded by
minWordLength) when errors and misses are both positive; keeps the length
and resets the streak when exactly one is positive; always increments
completedWords, records the word in usedWords, and keeps the word length
within the bounds. -/
theorem updateDifficultyState_progression (state : DifficultyState)
    (completedWord : String) (stats : PerformanceStats)
    (hmin : state.minWordLength ≤ state.currentWordLength)
    (hmax : state.currentWordLength ≤ state.maxWordLength) :
    (stats.errorCount = 0 ∧ stats.missedLetters = 0 →
      (state.consecutivePerfect + 1 ≥ PERFECT_COMPLETIONS_REQUIRED →
        (updateDifficultyState state completedWord stats).newState.currentWordLength =
            min (state.currentWordLength + 1) state.maxWordLength ∧
        (updateDifficultyState state completedWord stats).progression.progressionType =
            ProgressionType.upgrade ∧
        (updateDifficultyState state completedWord stats).newState.consecutivePerfect = 0) ∧
      (state.consecutivePerfect + 1 < PERFECT_COMPLETIONS_REQUIRED →
        (updateDifficultyState state completedWord stats).newState.currentWordLength =
            state.currentWordLength ∧
        (updateDifficultyState state completedWord stats).progression.progressionType =
            ProgressionType.stay ∧
        (updateDifficultyState state completedWord stats).newState.consecutivePerfect =
            state.consecutivePerfect + 1)) ∧
    (stats.errorCount > 0 ∧ stats.missedLetters > 0 →
      (updateDifficultyState state completedWord stats).newState.currentWordLength =
          max (state.currentWordLength - 1) state.minWordLength ∧
      (updateDifficultyState state completedWord stats).progression.progressionType =
          ProgressionType.downgrade ∧
      (updateDifficultyState state completedWord stats).newState.consecutivePerfect = 0) ∧
    ((stats.errorCount = 0 ∧ stats.missedLetters > 0) ∨
        (stats.errorCount > 0 ∧ stats.missedLetters = 0) →
      (updateDifficultyState state completedWord stats).newState.currentWordLength =
          state.currentWordLength ∧
      (updateDifficultyState state completedWord stats).newState.consecutivePerfect = 0) ∧
    (updateDifficultyState state completedWord stats).newState.completedWords =
        state.completedWords + 1 ∧
    completedWord ∈ (updateDifficultyState state completedWord stats).newState.usedWords ∧
    state.minWordLength ≤
        (updateDifficultyState state completedWord stats).newState.currentWordLength ∧
    (updateDifficultyState state completedWord stats).newState.currentWordLength ≤
        state.maxWordLength := by
  have hused : completedWord ∈ addUsedWord state.usedWords completedWord := by
    simp only [addUsedWord]
    split
    · assumption
    · exact List.mem_cons_self _ _
  unfold updateDifficultyState calculateNextWordLength shouldUpgrade shouldDowngrade
  dsimp only
  split_ifs with h1 h2 h3
  · simp only [Bool.and_eq_true, beq_iff_eq] at h1
    refine ⟨fun _ => ⟨fun _ => ⟨rfl, rfl, rfl⟩, fun hlt => ?_⟩,
      fun hd => ?_, fun hs => ?_, rfl, hused, ?_, ?_⟩
    · simp only [PERFECT_COMPLETIONS_REQUIRED] at hlt
      omega
    · rcases hd with ⟨he, _⟩
      exact absurd h1.1 (by omega)
    · rcases hs with ⟨_, hm⟩ | ⟨he, _⟩
      · exact absurd h1.2 (by omega)
      · exact absurd h1.1 (by omega)
    · show state.minWordLength ≤ min (state.currentWordLength + 1) state.maxWordLength
      omega
    · show min (state.currentWordLength + 1) state.maxWordLength ≤ state.maxWordLength
      omega
  · exact absurd (Nat.le_add_left 1 state.consecutivePerfect) h2
  · simp only [Bool.and_eq_true, beq_iff_eq, not_and] at h1
    simp only [Bool.and_eq_true, decide_eq_true_eq] at h3
    refine ⟨fun hp => absurd hp.2 (h1 hp.1), fun _ => ⟨rfl, rfl, rfl⟩,
      fun hs => ?_, rfl, hused, ?_, ?_⟩
    · rcases hs with ⟨he, _⟩ | ⟨_, hm⟩
      · exact absurd h3.1 (by omega)
      · exact absurd h3.2 (by omega)
    · show state.minWordLength ≤ max (state.currentWordLength - 1) state.minWordLength
      omega
    · show max (state.currentWordLength - 1) state.minWordLength ≤ state.maxWordLength
      omega
  · simp only [Bool.and_eq_true, beq_iff_eq, not_and] at h1
    simp only [Bool.and_eq_true, decide_eq_true_eq, not_and, not_lt,
      Nat.le_zero] at h3
    refine ⟨fun hp => absurd hp.2 (h1 hp.1), fun hd => ?_, fun _ => ⟨rfl, rfl⟩,
      rfl, hused, hmin, hmax⟩
    · exact absurd (h3 hd.1) (by omega)

/-- C2 witness: a perfect round at length 5 within bounds 3 to 10 upgrades
to length 6 and resets the streak. -/
theorem updateDifficultyState_progression_witness :
    (updateDifficultyState
        { currentWordLength := 5, minWordLength := 3, maxWordLength := 10,
          completedWords := 0, usedWords := [], consecutivePerfect := 0 }
        "fimma"
        { errorCount := 0, missedLetters := 0, isPerfect := true }).newState.currentWordLength =
      min (5 + 1) 10 ∧
    (updateDifficultyState
        { currentWordLength := 5, minWordLength := 3, maxWordLength := 10,
          completedWords := 0, usedWords := [], consecutivePerfect := 0 }
        "fimma"
        { errorCount := 0, missedLetters := 0, isPerfect := true }).progression.progressionType =
      ProgressionType.upgrade :=
  ⟨((updateDifficultyState_progression
      { currentWordLength := 5, minWordLength := 3, maxWordLength := 10,
        completedWords := 0, usedWords := [], consecutivePerfect := 0 }
      "fimma"
      { errorCount := 0, missedLetters := 0, isPerfect := true }
      (by norm_num) (by norm_num)).1 (by decide) |>.1 (by decide)).1,
   ((updateDifficultyState_progression
      { currentWordLength := 5, minWordLength := 3, maxWordLength := 10,
        completedWords := 0, usedWords := [], consecutivePerfect := 0 }
      "fimma"
      { errorCount := 0, missedLetters := 0, isPerfect := true }
      (by norm_num) (by norm_num)).1 (by decide) |>.1 (by decide)).2.1⟩

/-- C6: selectWordAtLength returns the null sentinel exactly when the
bucket at the requested length is empty (it is total, never a crash); when
some bucket word is unused it draws an unused bucket word; when the bucket
is non-empty but fully used it falls back to a draw from the whole bucket,
permitting repeats. -/
theorem selectWordAtLength_spec (pool : WordsByLength) (targetLength : Nat)
    (usedWords : List String) (randomIndex : Nat) :
    (selectWordAtLength pool targetLength usedWords randomIndex = none ↔
      pool targetLength = []) ∧
    ((pool targetLength).filter (fun word => !(usedWords.contains word)) ≠ [] →
      ∃ w, selectWordAtLength pool targetLength usedWords randomIndex = some w ∧
        w ∈ pool targetLength ∧ w ∉ usedWords) ∧
    (pool targetLength ≠ [] →
      (pool targetLength).filter (fun word => !(usedWords.contains word)) = [] →
      ∃ w, selectWordAtLength pool targetLength usedWords randomIndex = some w ∧
        w ∈ pool targetLength) := by
  refine ⟨?_, ?_, ?_⟩
  · constructor
    · intro h
      by_contra hne
      unfold selectWordAtLength at h
      dsimp only at h
      rw [if_neg (by simpa [List.isEmpty_iff] using hne)] at h
      split_ifs at h with h2
      · rcases get?_mod_eq_some (pool targetLength) hne randomIndex with ⟨w, hw, _⟩
        rw [hw] at h
        exact Option.noConfusion h
      · have hne2 : (pool targetLength).filter (fun word => !(usedWords.contains word)) ≠ [] := by
          simpa [List.isEmpty_iff] using h2
        rcases get?_mod_eq_some _ hne2 randomIndex with ⟨w, hw, _⟩
        rw [hw] at h
        exact Option.noConfusion h
    · intro h
      unfold selectWordAtLength
      dsimp only
      rw [if_pos (by simpa [List.isEmpty_iff] using h)]
  · intro hfil
    have hne : pool targetLength ≠ [] := by
      intro hz
      rw [hz] at hfil
      simp at hfil
    unfold selectWordAtLength
    dsimp only
    rw [if_neg (by simpa [List.isEmpty_iff] using hne),
      if_neg (by simpa [List.isEmpty_iff] using hfil)]
    rcases get?_mod_eq_some _ hfil randomIndex with ⟨w, hw, hmemf⟩
    rcases mem_available_words pool targetLength usedWords w hmemf with ⟨hmem, hnotused⟩
    exact ⟨w, hw, hmem, hnotused⟩
  · intro hne hfil
    unfold selectWordAtLength
    dsimp only
    rw [if_neg (by simpa [List.isEmpty_iff] using hne),
      if_pos (by simpa [List.isEmpty_iff] using hfil)]
    rcases get?_mod_eq_some _ hne randomIndex with ⟨w, hw, hmem⟩
    exact ⟨w, hw, hmem⟩

/-- A concrete pool with a bucket only at length 3, for witnesses. -/
def examplePool : WordsByLength := fun n => if n = 3 then ["abc", "def"] else []

/-- C6 witness: with word abc already used, the draw avoids it. -/
theorem selectWordAtLength_spec_witness :
    ∃ w, selectWordAtLength examplePool 3 ["abc"] 1 = some w ∧
      w ∈ examplePool 3 ∧ w ∉ ["abc"] :=
  (selectWordAtLength_spec examplePool 3 ["abc"] 1).2.1 (by decide)

/-- Every word in a bucket of the organized pool has the bucket length and
is the target of some input level (stated over the foldl accumulator). -/
theorem organizeWordsByLength_sound (levels : List Level) :
    ∀ (acc : WordsByLength) (n : Nat) (w : String),
      w ∈ (levels.foldl
        (fun wordsByLength level => fun len =>
          if len = level.target.length then wordsByLength len ++ [level.target]
          else wordsByLength len) acc) n →
      w ∈ acc n ∨ (w.length = n ∧ ∃ level, level ∈ levels ∧ level.target = w) := by
  induction levels with
  | nil =>
    intro acc n w h
    exact Or.inl h
  | cons hd tl ih =>
    intro acc n w h
    rcases ih _ n w h with hacc | ⟨hlen, level, hmem, htgt⟩
    · by_cases hn : n = hd.target.length
      · rw [hn] at hacc
        simp only [if_pos rfl] at hacc
        rcases List.mem_append.mp hacc with hold | hnew
        · rw [hn]
          exact Or.inl hold
        · rcases List.mem_singleton.mp hnew with rfl
          exact Or.inr ⟨hn.symm ▸ rfl, hd, List.mem_cons_self _ _, rfl⟩
      · simp only [if_neg hn] at hacc
        exact Or.inl hacc
    · exact Or.inr ⟨hlen, level, List.mem_cons_of_mem _ hmem, htgt⟩

/-- C10: a word selected from the pool organized from a list of levels has
exactly the requested length and is the target of one of those levels. -/
theorem selectWord_from_organized_pool (levels : List Level) (n : Nat)
    (usedWords : List String) (randomIndex : Nat) (w : String)
    (h : selectWordAtLength (organizeWordsByLength levels) n usedWords randomIndex
      = some w) :
    w.length = n ∧ ∃ level, level ∈ levels ∧ level.target = w := by
  have hmem := selectWordAtLength_mem (organizeWordsByLength levels) n usedWords
    randomIndex w h
  have hsound := organizeWordsByLength_sound levels (fun _ => []) n w
    (by simpa [organizeWordsByLength] using hmem)
  rcases hsound with hacc | hgood
  · exact absurd hacc (List.not_mem_nil w)
  · exact hgood

/-- C10 witness: drawing from the pool built of the single level abc. -/
theorem selectWord_from_organized_pool_witness :
    ("abc" : String).length = 3 ∧
      ∃ level, level ∈ [Level.mk "abc"] ∧ level.target = "abc" :=
  selectWord_from_organized_pool [Level.mk "abc"] 3 [] 0 "abc" (by decide)

/-- C9: processKeypress never touches tickCount or missedLetters; the empty
outcome returns the state unchanged; error and miss change only errorCount;
success leaves errorCount unchanged and rewrites only the catch-line board
slot. -/
theorem processKeypress_frame (pressedChar : Char) (state : GameState)
    (fullTarget : String) :
    (processKeypress pressedChar state fullTarget).newState.tickCount = state.tickCount ∧
    (processKeypress pressedChar state fullTarget).newState.missedLetters =
      state.missedLetters ∧
    ((processKeypress pressedChar state fullTarget).feedbackType = FeedbackType.empty →
      (processKeypress pressedChar state fullTarget).newState = state) ∧
    ((processKeypress pressedChar state fullTarget).feedbackType = FeedbackType.error ∨
        (processKeypress pressedChar state fullTarget).feedbackType = FeedbackType.miss →
      (processKeypress pressedChar state fullTarget).newState.board = state.board ∧
      (processKeypress pressedChar state fullTarget).newState.typedProgress =
        state.typedProgress ∧
      (processKeypress pressedChar state fullTarget).newState.catchCount =
        state.catchCount) ∧
    ((processKeypress pressedChar state fullTarget).feedbackType = FeedbackType.success →
      (processKeypress pressedChar state fullTarget).newState.errorCount =
        state.errorCount ∧
      ∀ i, i ≠ CATCH_LINE_POSITION →
        (processKeypress pressedChar state fullTarget).newState.board.get? i =
          state.board.get? i) := by
  unfold processKeypress
  dsimp only
  rcases hb : boardAt state.board CATCH_LINE_POSITION with _ | item
  · dsimp only
    exact ⟨rfl, rfl, fun _ => rfl,
      fun h => by rcases h with h1 | h1 <;> simp at h1,
      fun h => by simp at h⟩
  · dsimp only
    split_ifs with hs hm
    · refine ⟨rfl, rfl, fun h => h.elim,
        fun h => h.elim (fun h1 => h1.elim) (fun h1 => h1.elim),
        fun _ => ⟨rfl, fun i hi => ?_⟩⟩
      simp only [List.get?_eq_getElem?]
      exact List.getElem?_set_ne (fun hc => hi hc.symm)
    · exact ⟨rfl, rfl, fun h => h.elim,
        fun _ => ⟨rfl, rfl, rfl⟩, fun h => h.elim⟩
    · exact ⟨rfl, rfl, fun h => h.elim,
        fun _ => ⟨rfl, rfl, rfl⟩, fun h => h.elim⟩

/-- A state whose catch-line slot holds a lowercase b, for witnesses. -/
def exStateLower : GameState :=
  { createInitialGameState with
      board := (List.replicate BOARD_SIZE none).set 13 (some ⟨'b', false⟩) }

/-- C9 witness: a successful catch leaves errorCount untouched and does not
move the board head. -/
theorem processKeypress_frame_witness :
    (processKeypress 'b' exStateLower "b").newState.errorCount =
      exStateLower.errorCount ∧
    (processKeypress 'b' exStateLower "b").newState.board.get? 0 =
      exStateLower.board.get? 0 :=
  ⟨((processKeypress_frame 'b' exStateLower "b").2.2.2.2 (by decide)).1,
   ((processKeypress_frame 'b' exStateLower "b").2.2.2.2 (by decide)).2 0 (by decide)⟩

/-- A state whose catch-line slot holds an uppercase B, for the
case-sensitivity counterexamples. -/
def exStateUpper : GameState :=
  { createInitialGameState with
      board := (List.replicate BOARD_SIZE none).set 13 (some ⟨'B', false⟩) }

/-- C1 counterexample: with slot character B, target b and key b, the slot
character is not equal (strictly) to the next expected character, so the
claim classifies the press as an error with errorCount incremented; the
code returns success and leaves errorCount at 0, because it compares the
slot character to the next expected character case-insensitively. -/
theorem processKeypress_strict_equality_counterexample :
    boardAt exStateUpper.board CATCH_LINE_POSITION = some ⟨'B', false⟩ ∧
    charAt "b" exStateUpper.typedProgress.length = some 'b' ∧
    ('B' : Char) ≠ 'b' ∧
    Char.toLower 'b' = Char.toLower 'B' ∧
    (processKeypress 'b' exStateUpper "b").feedbackType = FeedbackType.success ∧
    (processKeypress 'b' exStateUpper "b").newState.errorCount = 0 ∧
    (processKeypress 'b' exStateUpper "b").newState.catchCount = 1 := by decide

/-- C1 (amended: the slot character is compared with the next expected
character case-insensitively, as it is with the pressed key): with the
catch-line slot occupied, processKeypress returns success exactly when the
pressed key matches the slot character case-insensitively and the slot
character case-insensitively equals the next expected character, marking
the slot caught, appending the slot character, incrementing catchCount,
reporting completion exactly when the new progress equals the target and
emitting cue success-min(catchCount, 29); error exactly when the key
matches the slot but the slot is not the next expected character, and miss
exactly when the key does not match the slot, both incrementing
errorCount. -/
theorem processKeypress_classification (pressedChar : Char) (state : GameState)
    (fullTarget : String) (item : BoardItem)
    (hslot : boardAt state.board CATCH_LINE_POSITION = some item) :
    ((processKeypress pressedChar state fullTarget).feedbackType = FeedbackType.success ↔
      ∃ c, charAt fullTarget state.typedProgress.length = some c ∧
        pressedChar.toLower = item.generated.toLower ∧
        item.generated.toLower = c.toLower) ∧
    ((processKeypress pressedChar state fullTarget).feedbackType = FeedbackType.success →
      (processKeypress pressedChar state fullTarget).newState =
        { state with
            board := state.board.set CATCH_LINE_POSITION
              (some { item with success := true })
            typedProgress := state.typedProgress.push item.generated
            catchCount := state.catchCount + 1 } ∧
      ((processKeypress pressedChar state fullTarget).isLevelComplete = true ↔
        state.typedProgress.push item.generated = fullTarget) ∧
      (processKeypress pressedChar state fullTarget).shouldPlaySound =
        some ("success" ++ toString (min state.catchCount 29))) ∧
    ((processKeypress pressedChar state fullTarget).feedbackType = FeedbackType.error ↔
      pressedChar.toLower = item.generated.toLower ∧
      ¬ ∃ c, charAt fullTarget state.typedProgress.length = some c ∧
        item.generated.toLower = c.toLower) ∧
    ((processKeypress pressedChar state fullTarget).feedbackType = FeedbackType.error →
      (processKeypress pressedChar state fullTarget).newState.errorCount =
        state.errorCount + 1) ∧
    ((processKeypress pressedChar state fullTarget).feedbackType = FeedbackType.miss ↔
      pressedChar.toLower ≠ item.generated.toLower) ∧
    ((processKeypress pressedChar state fullTarget).feedbackType = FeedbackType.miss →
      (processKeypress pressedChar state fullTarget).newState.errorCount =
        state.errorCount + 1) := by
  unfold processKeypress
  dsimp only
  rw [hslot]
  rcases hc : charAt fullTarget state.typedProgress.length with _ | c
  · dsimp only
    rw [if_neg Bool.false_ne_true]
    split_ifs with hm
    · refine ⟨⟨fun h => by simp at h, fun h => ?_⟩, fun h => by simp at h,
        ⟨fun _ => ⟨by simpa using hm, fun h => ?_⟩, fun _ => rfl⟩, fun _ => rfl,
        ⟨fun h => by simp at h, fun hne => absurd (by simpa using hm) hne⟩,
        fun h => by simp at h⟩
      · rcases h with ⟨c', hcc, _⟩
        exact hcc.elim
      · rcases h with ⟨c', hcc, _⟩
        exact hcc.elim
    · refine ⟨⟨fun h => by simp at h, fun h => ?_⟩, fun h => by simp at h,
        ⟨fun h => by simp at h, fun hpn => absurd (by simpa using hpn.1) hm⟩,
        fun h => by simp at h,
        ⟨fun _ => by simpa using hm, fun _ => rfl⟩, fun _ => rfl⟩
      rcases h with ⟨c', hcc, _⟩
      exact hcc.elim
  · dsimp only
    split_ifs with hs hm
    · simp only [Bool.and_eq_true, beq_iff_eq] at hs
      refine ⟨⟨fun _ => ⟨c, rfl, hs.1, hs.2⟩, fun _ => rfl⟩,
        fun _ => ⟨rfl, by simp, rfl⟩,
        ⟨fun h => by simp at h, fun ⟨_, hno⟩ => absurd ⟨c, rfl, hs.2⟩ hno⟩,
        fun h => by simp at h,
        ⟨fun h => by simp at h, fun hne => absurd hs.1 hne⟩,
        fun h => by simp at h⟩
    · refine ⟨⟨fun h => by simp at h, fun h => ?_⟩, fun h => by simp at h,
        ⟨fun _ => ⟨by simpa using hm, fun h => ?_⟩, fun _ => rfl⟩, fun _ => rfl,
        ⟨fun h => by simp at h, fun hne => absurd (by simpa using hm) hne⟩,
        fun h => by simp at h⟩
      · rcases h with ⟨c', hcc, hp, hq⟩
        injection hcc with hcc'
        subst hcc'
        exact hs (by simp [hp, hq])
      · rcases h with ⟨c', hcc, hq⟩
        injection hcc with hcc'
        subst hcc'
        exact hs (by simp [hq, (by simpa using hm : pressedChar.toLower = item.generated.toLower)])
    · refine ⟨⟨fun h => by simp at h, fun h => ?_⟩, fun h => by simp at h,
        ⟨fun h => by simp at h, fun ⟨hp, _⟩ => absurd (by simpa using hp) hm⟩,
        fun h => by simp at h,
        ⟨fun _ => by simpa using hm, fun _ => rfl⟩, fun _ => rfl⟩
      rcases h with ⟨c', hcc, hp, hq⟩
      exact absurd (by simpa using hp) hm

/-- C1 witness: the success classification instantiated at a lowercase
catch of b against target b. -/
theorem processKeypress_classification_witness :
    (processKeypress 'b' exStateLower "b").feedbackType = FeedbackType.success ↔
      ∃ c, charAt "b" exStateLower.typedProgress.length = some c ∧
        Char.toLower 'b' = Char.toLower 'b' ∧ Char.toLower 'b' = c.toLower :=
  (processKeypress_classification 'b' exStateLower "b" ⟨'b', false⟩ (by decide)).1

/-- String prefix test, on the underlying character lists. -/
def isPrefixStr (s t : String) : Bool := s.data.isPrefixOf t.data

/-- Extending a list prefix by the element found right after it. -/
theorem prefix_push_of_get? (l t : List Char) (c : Char)
    (hp : l.isPrefixOf t = true) (hc : t.get? l.length = some c) :
    (l ++ [c]).isPrefixOf t = true := by
  rw [List.isPrefixOf_iff_prefix] at hp ⊢
  rcases hp with ⟨u, rfl⟩
  rw [List.get?_eq_getElem?, List.getElem?_append_right (le_refl _)] at hc
  simp only [Nat.sub_self] at hc
  rcases u with _ | ⟨a, u'⟩
  · simp at hc
  · simp only [List.getElem?_cons_zero, Option.some_inj] at hc
    subst hc
    exact ⟨u', by simp⟩

/-- C5 counterexample: a successful catch of key b on slot character B with
target b appends the slot character B, which is not the target character b,
so the new typedProgress B is no longer a prefix of the target even though
the old one was. -/
theorem typedProgress_prefix_counterexample :
    (processKeypress 'b' exStateUpper "b").feedbackType = FeedbackType.success ∧
    isPrefixStr exStateUpper.typedProgress "b" = true ∧
    charAt "b" exStateUpper.typedProgress.length = some 'b' ∧
    (processKeypress 'b' exStateUpper "b").newState.typedProgress = "B" ∧
    ("B" : String) ≠ "b" ∧
    isPrefixStr (processKeypress 'b' exStateUpper "b").newState.typedProgress "b"
      = false := by decide

/-- C5 (amended: on success the appended character is the slot character,
which matches the next target character only case-insensitively, so the
prefix invariant needs the slot character to equal the next target
character exactly): processKeypress never shrinks typedProgress; on success
it appends exactly the slot character, which case-insensitively equals the
next target character; on any other outcome, and on every tick, the
progress is unchanged; and the prefix invariant is preserved whenever any
occupied catch-line slot facing a remaining target character holds it with
the exact same case. -/
theorem typedProgress_monotone (pressedChar : Char) (state : GameState)
    (fullTarget : String) :
    state.typedProgress.length ≤
      (processKeypress pressedChar state fullTarget).newState.typedProgress.length ∧
    ((processKeypress pressedChar state fullTarget).feedbackType = FeedbackType.success →
      ∃ item c, boardAt state.board CATCH_LINE_POSITION = some item ∧
        charAt fullTarget state.typedProgress.length = some c ∧
        (processKeypress pressedChar state fullTarget).newState.typedProgress =
          state.typedProgress.push item.generated ∧
        item.generated.toLower = c.toLower) ∧
    ((processKeypress pressedChar state fullTarget).feedbackType ≠ FeedbackType.success →
      (processKeypress pressedChar state fullTarget).newState.typedProgress =
        state.typedProgress) ∧
    (∀ newChar, (updateBoardWithNewChar state newChar fullTarget).typedProgress =
      state.typedProgress) ∧
    (isPrefixStr state.typedProgress fullTarget = true →
      (∀ item c, boardAt state.board CATCH_LINE_POSITION = some item →
        charAt fullTarget state.typedProgress.length = some c →
        item.generated = c) →
      isPrefixStr (processKeypress pressedChar state fullTarget).newState.typedProgress
        fullTarget = true) := by
  unfold processKeypress
  dsimp only
  rcases hb : boardAt state.board CATCH_LINE_POSITION with _ | item
  · exact ⟨le_refl _, fun h => by simp at h, fun _ => rfl, fun _ => rfl, fun hp _ => hp⟩
  · rcases hc : charAt fullTarget state.typedProgress.length with _ | c
    · dsimp only
      rw [if_neg Bool.false_ne_true]
      split_ifs with hm
      · exact ⟨le_refl _, fun h => by simp at h, fun _ => rfl, fun _ => rfl, fun hp _ => hp⟩
      · exact ⟨le_refl _, fun h => by simp at h, fun _ => rfl, fun _ => rfl, fun hp _ => hp⟩
    · dsimp only
      split_ifs with hs hm
      · simp only [Bool.and_eq_true, beq_iff_eq] at hs
        refine ⟨?_, fun _ => ⟨item, c, rfl, rfl, rfl, hs.2⟩, fun h => absurd rfl h,
          fun _ => rfl, fun hp hexact => ?_⟩
        · show state.typedProgress.length ≤ (state.typedProgress.push item.generated).length
          rw [String.length_push]
          exact Nat.le_succ _
        · have hec : item.generated = c := hexact item c rfl rfl
          show (state.typedProgress.push item.generated).data.isPrefixOf
            fullTarget.data = true
          rw [hec, String.data_push]
          exact prefix_push_of_get? _ _ _ hp hc
      · exact ⟨le_refl _, fun h => by simp at h, fun _ => rfl, fun _ => rfl, fun hp _ => hp⟩
      · exact ⟨le_refl _, fun h => by simp at h, fun _ => rfl, fun _ => rfl, fun hp _ => hp⟩

/-- C5 witness: the success branch at a lowercase catch of b on target b. -/
theorem typedProgress_monotone_witness :
    ∃ item c, boardAt exStateLower.board CATCH_LINE_POSITION = some item ∧
      charAt "b" exStateLower.typedProgress.length = some c ∧
      (processKeypress 'b' exStateLower "b").newState.typedProgress =
        exStateLower.typedProgress.push item.generated ∧
      item.generated.toLower = c.toLower :=
  (typedProgress_monotone 'b' exStateLower "b").2.1 (by decide)

/-- C3: advanceTick counts exactly one extra miss precisely when the
catch-line slot is occupied by an uncaught character that case-insensitively
equals the still-needed next target character, then shifts the board by
inserting the new slot at the head and dropping the tail, keeping length 16,
and increments tickCount; being total, it never fails. -/
theorem updateBoardWithNewChar_spec (state : GameState) (newChar : Char)
    (fullTarget : String) (hlen : state.board.length = 16) :
    ((updateBoardWithNewChar state newChar fullTarget).missedLetters =
        state.missedLetters + 1 ↔
      ∃ item c, boardAt state.board CATCH_LINE_POSITION = some item ∧
        charAt fullTarget state.typedProgress.length = some c ∧
        item.generated.toLower = c.toLower ∧ item.success = false) ∧
    ((¬ ∃ item c, boardAt state.board CATCH_LINE_POSITION = some item ∧
        charAt fullTarget state.typedProgress.length = some c ∧
        item.generated.toLower = c.toLower ∧ item.success = false) →
      (updateBoardWithNewChar state newChar fullTarget).missedLetters =
        state.missedLetters) ∧
    (updateBoardWithNewChar state newChar fullTarget).board.length = 16 ∧
    (updateBoardWithNewChar state newChar fullTarget).board.get? 0 =
      some (some ⟨newChar, false⟩) ∧
    (∀ i, i + 1 < 16 →
      (updateBoardWithNewChar state newChar fullTarget).board.get? (i + 1) =
        state.board.get? i) ∧
    (updateBoardWithNewChar state newChar fullTarget).tickCount =
      state.tickCount + 1 := by
  unfold updateBoardWithNewChar
  dsimp only
  refine ⟨?_, ?_, ?_, ?_, ?_, rfl⟩
  · rcases hbb : boardAt state.board CATCH_LINE_POSITION with _ | item
    · dsimp only
      simp
    · rcases hcc : charAt fullTarget state.typedProgress.length with _ | c
      · dsimp only
        simp
      · dsimp only
        split_ifs with hcond
        · exact ⟨fun _ => ⟨item, c, rfl, rfl, hcond.1, hcond.2⟩, fun _ => rfl⟩
        · constructor
          · intro h
            exact absurd h (by omega)
          · rintro ⟨item', c', hi, hc', hl, hs⟩
            injection hi with hi'
            injection hc' with hc''
            subst hi'
            subst hc''
            exact absurd ⟨hl, hs⟩ hcond
  · intro hno
    rcases hbb : boardAt state.board CATCH_LINE_POSITION with _ | item
    · dsimp only
    · rcases hcc : charAt fullTarget state.typedProgress.length with _ | c
      · dsimp only
      · dsimp only
        split_ifs with hcond
        · exact absurd ⟨item, c, hbb, hcc, hcond.1, hcond.2⟩ hno
        · rfl
  · rw [List.length_dropLast, List.length_cons, hlen]
  · rw [List.get?_eq_getElem?, List.getElem?_dropLast]
    rw [if_pos (by simp [hlen])]
    exact List.getElem?_cons_zero
  · intro i hi
    rw [List.get?_eq_getElem?, List.get?_eq_getElem?, List.getElem?_dropLast]
    rw [if_pos (by simp [hlen]; omega)]
    exact List.getElem?_cons_succ

/-- C3 witness: a tick on the initial board keeps length 16, puts the new
slot at the head and increments tickCount. -/
theorem updateBoardWithNewChar_spec_witness :
    (updateBoardWithNewChar createInitialGameState 'x' "ab").board.length = 16 ∧
    (updateBoardWithNewChar createInitialGameState 'x' "ab").board.get? 0 =
      some (some ⟨'x', false⟩) ∧
    (updateBoardWithNewChar createInitialGameState 'x' "ab").tickCount =
      createInitialGameState.tickCount + 1 :=
  ⟨(updateBoardWithNewChar_spec createInitialGameState 'x' "ab" (by decide)).2.2.1,
   (updateBoardWithNewChar_spec createInitialGameState 'x' "ab" (by decide)).2.2.2.1,
   (updateBoardWithNewChar_spec createInitialGameState 'x' "ab" (by decide)).2.2.2.2.2⟩

/-- Occurrence count in a deduplicated list: one per surviving element. -/
theorem count_dedupAux (d : Char) (l : List Char) : ∀ seen : List Char,
    (dedupAux l seen).count d = if d ∈ l ∧ d ∉ seen then 1 else 0 := by
  induction l with
  | nil =>
    intro seen
    simp [dedupAux]
  | cons a rest ih =>
    intro seen
    by_cases ha : a ∈ seen
    · have hstep : dedupAux (a :: rest) seen = dedupAux rest seen := by
        simp only [dedupAux]
        rw [if_pos ha]
      rw [hstep, ih seen]
      have hiff : (d ∈ rest ∧ d ∉ seen) ↔ (d ∈ a :: rest ∧ d ∉ seen) := by
        constructor
        · rintro ⟨h1, h2⟩
          exact ⟨List.mem_cons_of_mem _ h1, h2⟩
        · rintro ⟨h1, h2⟩
          rcases List.mem_cons.mp h1 with h1 | h1
          · exact absurd (h1 ▸ ha) h2
          · exact ⟨h1, h2⟩
      simp only [hiff]
    · have hstep : dedupAux (a :: rest) seen = a :: dedupAux rest (a :: seen) := by
        simp only [dedupAux]
        rw [if_neg ha]
      rw [hstep, List.count_cons, ih (a :: seen)]
      by_cases hda : d = a
      · subst hda
        simp [ha]
      · have hiff : (d ∈ rest ∧ d ∉ a :: seen) ↔ (d ∈ a :: rest ∧ d ∉ seen) := by
          constructor
          · rintro ⟨h1, h2⟩
            exact ⟨List.mem_cons_of_mem _ h1, fun h3 => h2 (List.mem_cons_of_mem _ h3)⟩
          · rintro ⟨h1, h2⟩
            rcases List.mem_cons.mp h1 with h1 | h1
            · exact absurd h1 hda
            · refine ⟨h1, fun h3 => ?_⟩
              rcases List.mem_cons.mp h3 with h3 | h3
              · exact hda h3
              · exact h2 h3
        rw [if_neg (fun h => hda (beq_iff_eq.mp h).symm), Nat.add_zero]
        simp only [hiff]

/-- Occurrence count in uniqueInOrder: one if present, else zero. -/
theorem count_uniqueInOrder (d : Char) (l : List Char) :
    (uniqueInOrder l).count d = if d ∈ l then 1 else 0 := by
  rw [uniqueInOrder, count_dedupAux]
  simp

/-- Counting occurrences through flatMap when only the block of d itself
can contribute copies of d. -/
theorem count_flatMap_single (f : Char → List Char) (d : Char)
    (hf : ∀ x, x ≠ d → (f x).count d = 0) (u : List Char) :
    (u.flatMap f).count d = u.count d * (f d).count d := by
  induction u with
  | nil => simp
  | cons a rest ih =>
    rw [List.flatMap_cons, List.count_append, ih, List.count_cons]
    by_cases hda : a = d
    · subst hda
      simp only [beq_self_eq_true, if_true]
      ring
    · rw [hf a hda, if_neg (by simpa using hda), Nat.add_zero, Nat.zero_add]

/-- Length of the weighted-copies flatMap: OTHER_WEIGHT per kept letter. -/
theorem length_flatMap_weighted (next : Char) (u : List Char) :
    (u.flatMap (fun letter =>
      if letter ≠ next ∧ letter ≠ ' ' then List.replicate OTHER_WEIGHT letter
      else [])).length =
    OTHER_WEIGHT * (u.filter (fun d => decide (d ≠ next ∧ d ≠ ' '))).length := by
  induction u with
  | nil => simp
  | cons a rest ih =>
    rw [List.flatMap_cons, List.length_append, ih]
    by_cases hcond : a ≠ next ∧ a ≠ ' '
    · rw [if_pos hcond, List.length_replicate,
        List.filter_cons_of_pos (by simpa using hcond), List.length_cons]
      ring
    · rw [if_neg hcond, List.filter_cons_of_neg (by simpa using hcond)]
      simp

/-- C4 counterexample: when the next required character is itself a space
(target a-space-b with the a already typed), the bag holds the space
NEXT_WEIGHT plus filler times, 13 in total, not exactly NEXT_WEIGHT as the
claim demands of the next required character. -/
theorem generateBagOfChars_space_counterexample :
    charAt "a b" ("a" : String).length = some ' ' ∧
    (generateBagOfChars "a" "a b").count ' ' = 13 ∧
    NEXT_WEIGHT = 10 ∧ (13 : Nat) ≠ NEXT_WEIGHT := by decide

/-- C4 (amended: provided the next required character is not a space; the
source filters multi-word targets, but the claim quantifies over all
targets): on a completed word the bag is the single-blank sentinel;
otherwise the lowercased next required character occurs exactly NEXT_WEIGHT
times, every other character occurs OTHER_WEIGHT times if it still occurs
in the lowercased remaining suffix and never otherwise, and the filler
blanks number the pre-filler selection size divided by SPACING_DIVISOR. -/
theorem generateBagOfChars_counts (typedProgress fullTarget : String) :
    (typedProgress = fullTarget →
      generateBagOfChars typedProgress fullTarget = [' ']) ∧
    (∀ c, charAt fullTarget typedProgress.length = some c → c.toLower ≠ ' ' →
      (generateBagOfChars typedProgress fullTarget).count c.toLower = NEXT_WEIGHT ∧
      (∀ d, d ≠ ' ' → d ≠ c.toLower →
        (generateBagOfChars typedProgress fullTarget).count d =
          (if d ∈ (fullTarget.data.drop typedProgress.length).map Char.toLower
           then OTHER_WEIGHT else 0)) ∧
      (generateBagOfChars typedProgress fullTarget).count ' ' =
        (NEXT_WEIGHT + OTHER_WEIGHT *
          ((uniqueInOrder
              ((fullTarget.data.drop typedProgress.length).map Char.toLower)).filter
            (fun d => decide (d ≠ c.toLower ∧ d ≠ ' '))).length) /
          SPACING_DIVISOR) := by
  constructor
  · intro h
    subst h
    unfold generateBagOfChars
    have hdrop : typedProgress.data.drop typedProgress.length = [] := by
      have hlen : typedProgress.length = typedProgress.data.length := rfl
      rw [hlen, List.drop_length]
    rw [hdrop]
  · intro c hc hcsp
    rcases hrem : fullTarget.data.drop typedProgress.length with _ | ⟨nc, rest⟩
    · exfalso
      have h1 : (fullTarget.data.drop typedProgress.length).head? = some c := by
        rw [List.head?_drop, ← List.get?_eq_getElem?]
        exact hc
      rw [hrem] at h1
      exact Option.noConfusion h1
    · have hnc : nc = c := by
        have h1 : (fullTarget.data.drop typedProgress.length).head? = some nc := by
          rw [hrem]
          rfl
        rw [List.head?_drop, ← List.get?_eq_getElem?] at h1
        exact (Option.some_inj.mp (hc.symm.trans h1)).symm
      subst hnc
      unfold generateBagOfChars
      rw [hrem]
      dsimp only
      have hf : ∀ e x, x ≠ e →
          ((if x ≠ nc.toLower ∧ x ≠ ' ' then List.replicate OTHER_WEIGHT x
            else []) : List Char).count e = 0 := by
        intro e x hx
        by_cases hcond : x ≠ nc.toLower ∧ x ≠ ' '
        · rw [if_pos hcond, List.count_replicate,
            if_neg (fun h => hx (beq_iff_eq.mp h))]
        · rw [if_neg hcond]
          rfl
      refine ⟨?_, ?_, ?_⟩
      · rw [List.count_append, List.count_append, List.count_replicate,
          if_pos (beq_self_eq_true nc.toLower),
          count_flatMap_single _ _ (hf nc.toLower),
          if_neg (fun h => h.1 rfl), List.count_nil, Nat.mul_zero,
          List.count_replicate,
          if_neg (fun h => hcsp (beq_iff_eq.mp h).symm)]
        omega
      · intro d hd1 hd2
        rw [List.count_append, List.count_append, List.count_replicate,
          if_neg (fun h => hd2 (beq_iff_eq.mp h).symm),
          count_flatMap_single _ _ (hf d),
          if_pos ⟨hd2, hd1⟩, count_uniqueInOrder,
          List.count_replicate, if_pos (beq_self_eq_true d),
          List.count_replicate, if_neg (fun h => hd1 (beq_iff_eq.mp h).symm)]
        by_cases hmem : d ∈ (nc :: rest).map Char.toLower
        · rw [if_pos hmem, if_pos hmem]
          omega
        · rw [if_neg hmem, if_neg hmem]
          omega
      · rw [List.count_append, List.count_append, List.count_replicate,
          if_neg (fun h => hcsp (beq_iff_eq.mp h)),
          count_flatMap_single _ _ (hf ' '),
          if_neg (fun h => h.2 rfl), List.count_nil, Nat.mul_zero,
          List.count_replicate, if_pos (beq_self_eq_true ' '),
          List.length_append, List.length_replicate, length_flatMap_weighted]
        omega

/-- C4 witness: for typed progress empty and target test, the letter t
occurs NEXT_WEIGHT times, and e and s occur OTHER_WEIGHT times each. -/
theorem generateBagOfChars_counts_witness :
    (generateBagOfChars "" "test").count 't' = NEXT_WEIGHT ∧
    (generateBagOfChars "" "test").count 'e' = OTHER_WEIGHT ∧
    (generateBagOfChars "" "test").count 's' = OTHER_WEIGHT := by
  have h := (generateBagOfChars_counts "" "test").2 't' (by decide) (by decide)
  refine ⟨h.1, ?_, ?_⟩
  · have he := h.2.1 'e' (by decide) (by decide)
    rw [he]
    decide
  · have hs := h.2.1 's' (by decide) (by decide)
    rw [hs]
    decide
